import Mathlib

/-!
Shallow embedding of the packet-buffer layer of the go-astits repository
(file `packet_buffer.go`), together with theorems settling the spec claims.

Modelling conventions:
* Bytes are `Nat`; the MPEG-TS sync byte `0x47` is `71`.
* The `io.Reader` handed to the buffer is modelled as an in-memory
  sequential source (`Source`): a full byte list, a cursor, a seekability
  flag (Go's `io.Seeker` type assertion), and an optional injected error
  that the source reports once its data is exhausted (`none` encodes a
  clean `io.EOF`).  `Source.read` is the greedy single `Read` call of an
  in-memory reader: it delivers `min k remaining` bytes with no error
  whenever at least one byte remains, mirroring `bytes.Reader.Read`.
* `Source.readFull` is `io.ReadFull` (`io.ReadAtLeast` with `min = len`)
  over that reader: full delivery, or the error on a zero-byte read, or
  `io.ErrUnexpectedEOF` substituted for `io.EOF` after a partial read.
* `parsePacket` lives outside `packet_buffer.go`; the spec specifies it
  at the boundary as an external pure decoder.  All definitions are
  parametrised by `parse : List Byte → Option α × Option Err`, matching
  the Go signature `parsePacket(b) (p *Packet, err error)`.
* Each Go decode goroutine writes its outcome from a private copy of its
  slice before signalling its wait group, and `first` blocks on that
  signal before reading the outcome.  The outcome is therefore a pure
  function of the slice alone, fixed at dispatch; completion timing can
  only delay `first`, never change any value it returns.  The embedding
  hence records each task's outcome at dispatch time.
* `math.Ceil(float64(n)/float64(packetSize))` is exact for the sizes the
  buffer can produce (`n ≤ 10000 · packetSize`), and is embedded as the
  integer ceiling `goCeil`.
* `errors.Wrap`/`errors.Wrapf` are embedded as the `Err.wrap`
  constructor; format-string arguments are dropped from the message.
-/

namespace Astits

/-- Bytes of the stream. -/
abbrev Byte := Nat

/-- The MPEG-TS synchronization byte `0x47`. -/
def syncByte : Byte := 71

/-- Errors arising in the embedded code.  `ioEOF` and `ioErrUnexpectedEOF`
are Go's `io.EOF` and `io.ErrUnexpectedEOF`; `injected` stands for an
arbitrary fatal error produced by the underlying source; `parseFailure`
for an arbitrary error produced by the external decoder. -/
inductive Err where
  | ioEOF : Err
  | ioErrUnexpectedEOF : Err
  | errNoMorePackets : Err
  | errPacketMustStartWithASyncByte : Err
  | errOnlyOneSyncByte : Err
  | injected : Nat → Err
  | parseFailure : Nat → Err
  | wrap : String → Err → Err
  deriving DecidableEq, Repr

/-- An in-memory sequential byte source standing for the `io.Reader`.
`failErr = none` means the source reports a clean `io.EOF` once `full`
is exhausted; `failErr = some e` means it reports the fatal error `e`
instead. -/
structure Source where
  full : List Byte
  pos : Nat
  seekable : Bool
  failErr : Option Err
  deriving DecidableEq, Repr

/-- One `Read(b)` call with a buffer of length `k` on the greedy
in-memory reader: deliver `min k remaining` bytes and no error while at
least one byte remains; report `io.EOF` (or the injected error) once
exhausted. -/
def Source.read (s : Source) (k : Nat) : Source × List Byte × Option Err :=
  let rem := s.full.length - s.pos
  if rem = 0 then
    (s, [], some (s.failErr.getD .ioEOF))
  else
    let n := min k rem
    ({ s with pos := s.pos + n }, (s.full.drop s.pos).take n, none)

/-- `io.ReadFull(r, b)` with `len(b) = k` over the greedy reader:
either the buffer is filled, or zero bytes were available and the
source's error is returned as is, or a partial read happened and the
follow-up read's error is returned with `io.EOF` replaced by
`io.ErrUnexpectedEOF` (exactly `io.ReadAtLeast`'s substitution). -/
def Source.readFull (s : Source) (k : Nat) : Source × List Byte × Option Err :=
  let rem := s.full.length - s.pos
  if k ≤ rem then
    ({ s with pos := s.pos + k }, (s.full.drop s.pos).take k, none)
  else if rem = 0 then
    (s, [], some (s.failErr.getD .ioEOF))
  else
    let e := s.failErr.getD .ioEOF
    ({ s with pos := s.pos + rem }, (s.full.drop s.pos).take rem,
      some (if e = .ioEOF then .ioErrUnexpectedEOF else e))

/-- `rewind` from `packet_buffer.go`: seek the reader back to offset 0
when it supports seeking, otherwise report `n = -1`.  Seeking an
in-memory source to offset 0 cannot fail. -/
def rewind (s : Source) : Source × Int × Option Err :=
  if s.seekable then ({ s with pos := 0 }, 0, none)
  else (s, -1, none)

/-- `make([]byte, k)` followed by `copy` from `xs`: the first
`min k xs.length` bytes come from `xs`, the rest stay zero. -/
def padTo (k : Nat) (xs : List Byte) : List Byte :=
  xs.take k ++ List.replicate (k - xs.length) 0

/-- The scan loop of `autoDetectPacketSize`
(`for idx, b := range b { if b == syncByte && idx >= 188 { ... } }`):
the first index `≥ 188` (counting from `idx`) holding the sync byte. -/
def findSyncFrom : List Byte → Nat → Option Nat
  | [], _ => none
  | c :: cs, idx =>
    if c = syncByte ∧ 188 ≤ idx then some idx else findSyncFrom cs (idx + 1)

/-- First index `≥ 188` of a sync byte in the probe buffer. -/
def findSyncIdx (b : List Byte) : Option Nat :=
  findSyncFrom b 0

/-- `autoDetectPacketSize` from `packet_buffer.go`.  Reads a 193-byte
probe with a single `Read` call (the byte count returned by `Read` is
ignored, as in the source), requires the first byte to be the sync
byte, takes the first recurrence index `≥ 188` as the packet size, and
resynchronizes: seek to 0 when possible, otherwise a single `Read` of
`ls = packetSize - (193 - packetSize)` bytes (count again ignored). -/
def autoDetectPacketSize (s : Source) : Source × Nat × Option Err :=
  match s.read 193 with
  | (s1, _, some e) =>
    (s1, 0, some (.wrap "astits: reading first bytes failed" e))
  | (s1, bytes, none) =>
    let b := padTo 193 bytes
    if b.getD 0 0 ≠ syncByte then
      (s1, 0, some .errPacketMustStartWithASyncByte)
    else
      match findSyncIdx b with
      | some idx =>
        match rewind s1 with
        | (s2, n, _) =>
          if n = -1 then
            match s2.read (idx - (193 - idx)) with
            | (s3, _, some e) =>
              (s3, idx, some (.wrap "astits: reading bytes to sync reader failed" e))
            | (s3, _, none) => (s3, idx, none)
          else (s2, idx, none)
      | none => (s1, 0, some .errOnlyOneSyncByte)

/-- `packetBufferItem`: the single-assignment outcome of one decode
goroutine, as read after waiting on its wait group. -/
structure PBItem (α : Type) where
  p : Option α
  err : Option Err

/-- `packetBuffer`: the reusable chunk buffer `b`, the pending item
queue `items`, the packet size, and the reader `r`. -/
structure PacketBuffer (α : Type) where
  buf : List Byte
  items : List (PBItem α)
  packetSize : Nat
  src : Source

/-- The outcome a decode goroutine records for the byte slice `b`
(`item.p, item.err = parsePacket(b)`). -/
def itemOf {α : Type} (parse : List Byte → Option α × Option Err) (b : List Byte) :
    PBItem α :=
  ⟨(parse b).1, (parse b).2⟩

/-- The private slice copy a decode goroutine works on:
`b := make([]byte, packetSize); copy(b, pb.b[i*packetSize:(i+1)*packetSize])`. -/
def sliceCopy (buf : List Byte) (ps i : Nat) : List Byte :=
  padTo ps ((buf.drop (i * ps)).take ps)

/-- `int(math.Ceil(float64(n) / float64(ps)))` for the exactly
representable sizes the buffer produces. -/
def goCeil (n ps : Nat) : Nat := (n + ps - 1) / ps

/-- The dispatch loop of `next`: one item per index
`i < ceil(n / packetSize)`, appended in index order, each holding the
outcome its goroutine computes from its private slice copy. -/
def dispatchItems {α : Type} (parse : List Byte → Option α × Option Err)
    (buf : List Byte) (ps n : Nat) : List (PBItem α) :=
  (List.range (goCeil n ps)).map fun i => itemOf parse (sliceCopy buf ps i)

/-- The buffer state immediately after the dispatch loop of `next`
appended its items, before the final drain. -/
def dispatchState {α : Type} (parse : List Byte → Option α × Option Err)
    (pb : PacketBuffer α) (n : Nat) : PacketBuffer α :=
  { pb with items := pb.items ++ dispatchItems parse pb.buf pb.packetSize n }

/-- `first` from `packet_buffer.go`: if the queue is non-empty, wait on
the head item's wait group, read its outcome and drop it from the
queue. -/
def PacketBuffer.first {α : Type} (pb : PacketBuffer α) :
    PacketBuffer α × Option α × Option Err :=
  match pb.items with
  | [] => (pb, none, none)
  | it :: rest => ({ pb with items := rest }, it.p, it.err)

/-- `next` from `packet_buffer.go`: drain the head item if it yields a
packet or an error; otherwise `io.ReadFull` into the chunk buffer
(`io.EOF` becomes the `ErrNoMorePackets` sentinel, any error other than
`io.ErrUnexpectedEOF` is wrapped and returned with nothing queued),
dispatch one decode task per `ceil(n / packetSize)` slice, and drain
the head. -/
def PacketBuffer.next {α : Type} (parse : List Byte → Option α × Option Err)
    (pb : PacketBuffer α) : PacketBuffer α × Option α × Option Err :=
  match pb.first with
  | (pb1, some p, e) => (pb1, some p, e)
  | (pb1, none, some e) => (pb1, none, some e)
  | (pb1, none, none) =>
    match pb1.src.readFull pb1.buf.length with
    | (srcNew, bytes, rerr) =>
      let n := bytes.length
      let pb2 : PacketBuffer α :=
        { pb1 with src := srcNew, buf := bytes ++ pb1.buf.drop n }
      match rerr with
      | some .ioEOF => (pb2, none, some .errNoMorePackets)
      | some .ioErrUnexpectedEOF => (dispatchState parse pb2 n).first
      | some e => (pb2, none, some (.wrap "astits: reading bytes failed" e))
      | none => (dispatchState parse pb2 n).first

/-- `newPacketBuffer`: auto-detect the packet size when it is 0, then
allocate the zeroed chunk buffer of `10000 * packetSize` bytes. -/
def newPacketBuffer (α : Type) (src : Source) (packetSize : Nat) :
    Option (PacketBuffer α) × Option Err :=
  if packetSize = 0 then
    match autoDetectPacketSize src with
    | (_, _, some e) =>
      (none, some (.wrap "astits: auto detecting packet size failed" e))
    | (s1, ps, none) =>
      (some { buf := List.replicate (10000 * ps) 0, items := [],
              packetSize := ps, src := s1 }, none)
  else
    (some { buf := List.replicate (10000 * packetSize) 0, items := [],
            packetSize := packetSize, src := src }, none)

/-- The results of `count` successive `next()` calls, oldest first,
together with the final buffer state. -/
def runNext {α : Type} (parse : List Byte → Option α × Option Err)
    (pb : PacketBuffer α) : Nat → PacketBuffer α × List (Option α × Option Err)
  | 0 => (pb, [])
  | Nat.succ m =>
    match pb.next parse with
    | (pb1, p, e) =>
      match runNext parse pb1 m with
      | (pb2, out) => (pb2, (p, e) :: out)

/-! ## Helper lemmas -/

theorem padTo_length (k : Nat) (xs : List Byte) : (padTo k xs).length = k := by
  simp only [padTo, List.length_append, List.length_take, List.length_replicate]
  omega

theorem padTo_eq_self {k : Nat} {xs : List Byte} (h : xs.length = k) :
    padTo k xs = xs := by
  subst h
  simp [padTo]

theorem flatten_length_const {ps : Nat} :
    ∀ {pkts : List (List Byte)}, (∀ pk ∈ pkts, pk.length = ps) →
      pkts.flatten.length = pkts.length * ps
  | [], _ => by simp
  | pk :: rest, h => by
    have hrest := flatten_length_const (fun q hq => h q (List.mem_cons_of_mem _ hq))
    have hpk : pk.length = ps := h pk (List.mem_cons_self _ _)
    simp [List.flatten_cons, List.length_append, hpk, hrest, Nat.succ_mul, Nat.add_comm]

theorem flatten_slice {ps : Nat} :
    ∀ (pkts : List (List Byte)) (tl : List Byte) (i : Nat),
      (∀ pk ∈ pkts, pk.length = ps) → (hi : i < pkts.length) →
      ((pkts.flatten ++ tl).drop (i * ps)).take ps = pkts[i]
  | [], _, i, _, hi => absurd hi (by simp)
  | pk :: rest, tl, 0, h, _ => by
    have hpk : pk.length = ps := h pk (List.mem_cons_self _ _)
    simp only [List.flatten_cons, List.append_assoc, Nat.zero_mul, List.drop_zero]
    rw [List.take_left' hpk]
    rfl
  | pk :: rest, tl, i + 1, h, hi => by
    have hpk : pk.length = ps := h pk (List.mem_cons_self _ _)
    have hrest := flatten_slice rest tl i
      (fun q hq => h q (List.mem_cons_of_mem _ hq)) (by simpa using hi)
    have hd : (i + 1) * ps = ps + i * ps := by ring
    simp only [List.flatten_cons, List.append_assoc, hd]
    rw [← List.drop_drop, List.drop_left' hpk]
    simpa using hrest

theorem flatten_take {ps : Nat} :
    ∀ (pkts : List (List Byte)) (m : Nat),
      (∀ pk ∈ pkts, pk.length = ps) → m ≤ pkts.length →
      pkts.flatten.take (m * ps) = (pkts.take m).flatten
  | _, 0, _, _ => by simp
  | [], m + 1, _, hm => absurd hm (by simp)
  | pk :: rest, m + 1, h, hm => by
    have hpk : pk.length = ps := h pk (List.mem_cons_self _ _)
    have hrest := flatten_take rest m
      (fun q hq => h q (List.mem_cons_of_mem _ hq)) (by simpa using hm)
    have hd : (m + 1) * ps = pk.length + m * ps := by rw [hpk]; ring
    simp only [List.flatten_cons, hd, List.take_append, hrest, List.take_succ_cons]

theorem flatten_drop {ps : Nat} :
    ∀ (pkts : List (List Byte)) (m : Nat),
      (∀ pk ∈ pkts, pk.length = ps) → m ≤ pkts.length →
      pkts.flatten.drop (m * ps) = (pkts.drop m).flatten
  | _, 0, _, _ => by simp
  | [], m + 1, _, hm => absurd hm (by simp)
  | pk :: rest, m + 1, h, hm => by
    have hpk : pk.length = ps := h pk (List.mem_cons_self _ _)
    have hrest := flatten_drop rest m
      (fun q hq => h q (List.mem_cons_of_mem _ hq)) (by simpa using hm)
    have hd : (m + 1) * ps = ps + m * ps := by ring
    simp only [List.flatten_cons, hd]
    rw [← List.drop_drop, List.drop_left' hpk, hrest]
    rfl

theorem goCeil_mul {ps : Nat} (hps : 0 < ps) (m : Nat) : goCeil (m * ps) ps = m := by
  unfold goCeil
  rcases m with _ | m
  · simp only [Nat.zero_mul, Nat.zero_add]
    exact Nat.div_eq_of_lt (by omega)
  · have h1 : (m + 1) * ps + ps - 1 = (ps - 1) + ps * (m + 1) := by
      rw [Nat.mul_comm]
      omega
    rw [h1, Nat.add_mul_div_left _ _ hps, Nat.div_eq_of_lt (by omega)]
    omega

theorem dispatch_items_eq {α : Type} (parse : List Byte → Option α × Option Err)
    {ps : Nat} (pkts : List (List Byte)) (tl : List Byte)
    (hps : 0 < ps) (hlen : ∀ pk ∈ pkts, pk.length = ps) :
    dispatchItems parse (pkts.flatten ++ tl) ps (pkts.length * ps)
      = pkts.map (itemOf parse) := by
  unfold dispatchItems
  rw [goCeil_mul hps]
  apply List.ext_getElem
  · simp
  · intro i h1 h2
    have hi : i < pkts.length := by simpa using h2
    simp only [List.getElem_map, List.getElem_range]
    have hs : sliceCopy (pkts.flatten ++ tl) ps i = pkts[i] := by
      unfold sliceCopy
      rw [flatten_slice pkts tl i hlen hi]
      exact padTo_eq_self (hlen _ (List.getElem_mem hi))
    rw [hs]

/-- The coupled induction invariant for the drain/refill loop: the
pending queue holds the decode outcomes of the packets `pend` (in
order), the source still holds exactly the packets `rest`, the source
ends cleanly, every packet has length `packetSize`, and the chunk
buffer spans `cap` whole packets. -/
def BufferInv {α : Type} (parse : List Byte → Option α × Option Err) (cap : Nat)
    (pb : PacketBuffer α) (pend rest : List (List Byte)) : Prop :=
  pb.items = pend.map (itemOf parse) ∧
  pb.src.full.drop pb.src.pos = rest.flatten ∧
  pb.src.failErr = none ∧
  (∀ pk ∈ pend, pk.length = pb.packetSize) ∧
  (∀ pk ∈ rest, pk.length = pb.packetSize) ∧
  0 < pb.packetSize ∧ 0 < cap ∧
  pb.buf.length = cap * pb.packetSize

theorem next_dispatch_eq {α : Type} (parse : List Byte → Option α × Option Err)
    (pb : PacketBuffer α) (s1 : Source) (bs : List Byte) (rerr : Option Err)
    (hfirst : pb.first = (pb, none, none))
    (hrf : pb.src.readFull pb.buf.length = (s1, bs, rerr))
    (hok : rerr = none ∨ rerr = some .ioErrUnexpectedEOF) :
    pb.next parse =
      (dispatchState parse { pb with src := s1, buf := bs ++ pb.buf.drop bs.length }
        bs.length).first := by
  unfold PacketBuffer.next
  rw [hfirst]
  dsimp only
  rw [hrf]
  dsimp only
  rcases hok with h | h <;> rw [h]

theorem drain_step {α : Type} (parse : List Byte → Option α × Option Err) (cap : Nat)
    (pb : PacketBuffer α) (pk : List Byte) (pend rest : List (List Byte))
    (hInv : BufferInv parse cap pb (pk :: pend) rest)
    (hv : (parse pk).1.isSome ∨ (parse pk).2.isSome) :
    pb.next parse
        = ({ pb with items := pend.map (itemOf parse) }, (parse pk).1, (parse pk).2)
      ∧ BufferInv parse cap { pb with items := pend.map (itemOf parse) } pend rest := by
  obtain ⟨hitems, hsrc, hfail, hpend, hrest, hps, hcap, hbuf⟩ := hInv
  have hInv2 : BufferInv parse cap { pb with items := pend.map (itemOf parse) } pend rest :=
    ⟨rfl, hsrc, hfail, fun q hq => hpend q (List.mem_cons_of_mem _ hq), hrest, hps, hcap, hbuf⟩
  refine ⟨?_, hInv2⟩
  rcases h1 : (parse pk).1 with _ | v <;> rcases h2 : (parse pk).2 with _ | w
  · rw [h1, h2] at hv
    simp at hv
  · simp [PacketBuffer.next, PacketBuffer.first, hitems, itemOf, h1, h2]
  · simp [PacketBuffer.next, PacketBuffer.first, hitems, itemOf, h1, h2]
  · simp [PacketBuffer.next, PacketBuffer.first, hitems, itemOf, h1, h2]

theorem exhausted_next {α : Type} (parse : List Byte → Option α × Option Err)
    (pb : PacketBuffer α)
    (hitems : pb.items = [])
    (hrem : pb.src.full.length ≤ pb.src.pos)
    (hfail : pb.src.failErr = none)
    (hk : 0 < pb.buf.length) :
    pb.next parse = (pb, none, some .errNoMorePackets) := by
  have hfirst : pb.first = (pb, none, none) := by
    simp [PacketBuffer.first, hitems]
  have h0 : pb.src.full.length - pb.src.pos = 0 := by omega
  have hne : pb.buf.length ≠ 0 := by omega
  have hrf : pb.src.readFull pb.buf.length = (pb.src, [], some .ioEOF) := by
    unfold Source.readFull
    rw [h0]
    simp [hne, hfail]
  unfold PacketBuffer.next
  rw [hfirst]
  dsimp only
  rw [hrf]
  simp

theorem dispatch_then_first {α : Type} (parse : List Byte → Option α × Option Err)
    (pb : PacketBuffer α) (q0 : List Byte) (qrest : List (List Byte)) (tl : List Byte)
    (hitems : pb.items = [])
    (hbuf : pb.buf = (q0 :: qrest).flatten ++ tl)
    (hps : 0 < pb.packetSize)
    (hlen : ∀ pk ∈ q0 :: qrest, pk.length = pb.packetSize) :
    (dispatchState parse pb ((q0 :: qrest).length * pb.packetSize)).first
      = ({ pb with items := qrest.map (itemOf parse) }, (parse q0).1, (parse q0).2) := by
  have hd : dispatchItems parse pb.buf pb.packetSize ((q0 :: qrest).length * pb.packetSize)
      = (q0 :: qrest).map (itemOf parse) := by
    rw [hbuf]
    exact dispatch_items_eq parse (q0 :: qrest) tl hps hlen
  unfold dispatchState PacketBuffer.first
  rw [hd, hitems]
  simp [itemOf]

theorem refill_step {α : Type} (parse : List Byte → Option α × Option Err) (cap : Nat)
    (pb : PacketBuffer α) (r0 : List Byte) (rest1 : List (List Byte))
    (hInv : BufferInv parse cap pb [] (r0 :: rest1)) :
    ∃ pbR pend2 rest2,
      pb.next parse = (pbR, (parse r0).1, (parse r0).2) ∧
      pend2 ++ rest2 = rest1 ∧
      BufferInv parse cap pbR pend2 rest2 := by
  obtain ⟨hitems, hsrc, hfail, -, hrest, hps, hcap, hbuf⟩ := hInv
  simp only [List.map_nil] at hitems
  have hfirst : pb.first = (pb, none, none) := by
    simp [PacketBuffer.first, hitems]
  have hflat : (pb.src.full.drop pb.src.pos).length
      = (r0 :: rest1).length * pb.packetSize := by
    rw [hsrc]
    exact flatten_length_const hrest
  have hremlen : pb.src.full.length - pb.src.pos
      = (r0 :: rest1).length * pb.packetSize := by
    rw [← List.length_drop]
    exact hflat
  by_cases hcase : pb.buf.length ≤ pb.src.full.length - pb.src.pos
  · -- Full chunk: ReadFull fills the whole buffer with `cap` packets.
    obtain ⟨c, rfl⟩ : ∃ c, cap = c + 1 := ⟨cap - 1, by omega⟩
    have hcapL : c + 1 ≤ (r0 :: rest1).length := by
      rw [hbuf, hremlen] at hcase
      exact Nat.le_of_mul_le_mul_right hcase hps
    have hlenTake : ∀ pk ∈ r0 :: rest1.take c, pk.length = pb.packetSize := by
      intro q hq
      rcases List.mem_cons.mp hq with h | h
      · exact h ▸ hrest r0 (List.mem_cons_self _ _)
      · exact hrest q (List.mem_cons_of_mem _ (List.mem_of_mem_take h))
    have hbytes : (pb.src.full.drop pb.src.pos).take pb.buf.length
        = (r0 :: rest1.take c).flatten := by
      rw [hsrc, hbuf, flatten_take _ (c + 1) hrest hcapL, List.take_succ_cons]
    have hrf : pb.src.readFull pb.buf.length
        = ({ pb.src with pos := pb.src.pos + pb.buf.length },
           (r0 :: rest1.take c).flatten, none) := by
      unfold Source.readFull
      dsimp only
      rw [if_pos hcase, hbytes]
    have hnext := next_dispatch_eq parse pb _ _ _ hfirst hrf (Or.inl rfl)
    have hn2 : ((r0 :: rest1.take c).flatten).length
        = (r0 :: rest1.take c).length * pb.packetSize :=
      flatten_length_const hlenTake
    rw [hn2] at hnext
    have hds := dispatch_then_first parse
      { pb with src := { pb.src with pos := pb.src.pos + pb.buf.length },
                buf := (r0 :: rest1.take c).flatten
                  ++ pb.buf.drop ((r0 :: rest1.take c).length * pb.packetSize) }
      r0 (rest1.take c)
      (pb.buf.drop ((r0 :: rest1.take c).length * pb.packetSize))
      hitems rfl hps hlenTake
    have heq := hnext.trans hds
    refine ⟨_, rest1.take c, rest1.drop c, heq, List.take_append_drop c rest1, ?_⟩
    refine ⟨rfl, ?_, hfail, ?_, ?_, hps, by omega, ?_⟩
    · show pb.src.full.drop (pb.src.pos + pb.buf.length) = (rest1.drop c).flatten
      rw [← List.drop_drop, hsrc, hbuf,
        flatten_drop _ (c + 1) hrest hcapL, List.drop_succ_cons]
    · intro q hq
      exact hrest q (List.mem_cons_of_mem _ (List.mem_of_mem_take hq))
    · intro q hq
      exact hrest q (List.mem_cons_of_mem _ (List.mem_of_mem_drop hq))
    · show ((r0 :: rest1.take c).flatten
          ++ pb.buf.drop ((r0 :: rest1.take c).length * pb.packetSize)).length
        = (c + 1) * pb.packetSize
      rw [List.length_append, List.length_drop, hn2]
      have hc1 : c ≤ rest1.length := by
        simpa using hcapL
      have hTlen : (r0 :: rest1.take c).length = c + 1 := by
        simp [List.length_take, Nat.min_eq_left hc1]
      rw [hTlen, hbuf]
      omega
  · -- Partial final chunk: ReadFull delivers every remaining packet and
    -- substitutes ErrUnexpectedEOF for the follow-up EOF.
    have hne0 : ¬ (pb.src.full.length - pb.src.pos = 0) := by
      have : 0 < (r0 :: rest1).length * pb.packetSize :=
        Nat.mul_pos (by simp) hps
      omega
    have hbytes : (pb.src.full.drop pb.src.pos).take (pb.src.full.length - pb.src.pos)
        = (r0 :: rest1).flatten := by
      rw [← List.length_drop, List.take_length, hsrc]
    have hrf : pb.src.readFull pb.buf.length
        = ({ pb.src with pos := pb.src.pos + (pb.src.full.length - pb.src.pos) },
           (r0 :: rest1).flatten, some .ioErrUnexpectedEOF) := by
      unfold Source.readFull
      dsimp only
      rw [if_neg hcase, if_neg hne0, hbytes, hfail]
      simp
    have hnext := next_dispatch_eq parse pb _ _ _ hfirst hrf (Or.inr rfl)
    have hn2 : ((r0 :: rest1).flatten).length
        = (r0 :: rest1).length * pb.packetSize :=
      flatten_length_const hrest
    rw [hn2] at hnext
    have hds := dispatch_then_first parse
      { pb with src := { pb.src with pos := pb.src.pos + (pb.src.full.length - pb.src.pos) },
                buf := (r0 :: rest1).flatten
                  ++ pb.buf.drop ((r0 :: rest1).length * pb.packetSize) }
      r0 rest1
      (pb.buf.drop ((r0 :: rest1).length * pb.packetSize))
      hitems rfl hps hrest
    have heq := hnext.trans hds
    refine ⟨_, rest1, [], heq, List.append_nil rest1, ?_⟩
    refine ⟨rfl, ?_, hfail, ?_, by simp, hps, hcap, ?_⟩
    · show pb.src.full.drop (pb.src.pos + (pb.src.full.length - pb.src.pos))
        = List.flatten []
      rw [← List.drop_drop, hsrc, ← hsrc, ← List.length_drop, List.drop_length]
      rfl
    · intro q hq
      exact hrest q (List.mem_cons_of_mem _ hq)
    · show ((r0 :: rest1).flatten
          ++ pb.buf.drop ((r0 :: rest1).length * pb.packetSize)).length
        = cap * pb.packetSize
      rw [List.length_append, List.length_drop, hn2]
      rw [hremlen] at hcase
      omega

theorem runNext_spec {α : Type} (parse : List Byte → Option α × Option Err) (cap : Nat) :
    ∀ (N : Nat) (pb : PacketBuffer α) (pend rest : List (List Byte)),
      pend.length + rest.length = N →
      BufferInv parse cap pb pend rest →
      (∀ pk ∈ pend ++ rest, (parse pk).1.isSome ∨ (parse pk).2.isSome) →
      (runNext parse pb N).2
          = (pend ++ rest).map (fun pk => ((parse pk).1, (parse pk).2)) ∧
        BufferInv parse cap (runNext parse pb N).1 [] [] := by
  intro N
  induction N with
  | zero =>
    intro pb pend rest hN hInv hval
    have hp : pend = [] := List.length_eq_zero.mp (by omega)
    have hr : rest = [] := List.length_eq_zero.mp (by omega)
    subst hp
    subst hr
    exact ⟨rfl, hInv⟩
  | succ N ih =>
    intro pb pend rest hN hInv hval
    cases pend with
    | cons pk pend1 =>
      have hvpk : (parse pk).1.isSome ∨ (parse pk).2.isSome := hval pk (by simp)
      obtain ⟨hnext, hInv1⟩ := drain_step parse cap pb pk pend1 rest hInv hvpk
      have hval1 : ∀ q ∈ pend1 ++ rest, (parse q).1.isSome ∨ (parse q).2.isSome := by
        intro q hq
        refine hval q ?_
        simp only [List.mem_append, List.mem_cons] at hq ⊢
        tauto
      have hN1 : pend1.length + rest.length = N := by
        simp only [List.length_cons] at hN
        omega
      obtain ⟨hout, hInvF⟩ :=
        ih { pb with items := pend1.map (itemOf parse) } pend1 rest hN1 hInv1 hval1
      rcases hrn : runNext parse { pb with items := pend1.map (itemOf parse) } N
        with ⟨pbF, out⟩
      rw [hrn] at hout hInvF
      constructor
      · simp only [runNext, hnext, hrn]
        simpa using hout
      · simpa [runNext, hnext, hrn] using hInvF
    | nil =>
      cases rest with
      | nil => simp at hN
      | cons r0 rest1 =>
        obtain ⟨pbR, pend2, rest2, hnext, happ, hInvR⟩ :=
          refill_step parse cap pb r0 rest1 hInv
        have hN1 : pend2.length + rest2.length = N := by
          have hlen := congrArg List.length happ
          simp only [List.length_append] at hlen
          simp only [List.length_nil, List.length_cons] at hN
          omega
        have hval1 : ∀ q ∈ pend2 ++ rest2, (parse q).1.isSome ∨ (parse q).2.isSome := by
          intro q hq
          rw [happ] at hq
          refine hval q ?_
          simp only [List.nil_append, List.mem_cons]
          right
          exact hq
        obtain ⟨hout, hInvF⟩ := ih pbR pend2 rest2 hN1 hInvR hval1
        rcases hrn : runNext parse pbR N with ⟨pbF, out⟩
        rw [hrn] at hout hInvF
        rw [happ] at hout
        constructor
        · simp only [runNext, hnext, hrn]
          simpa using hout
        · simpa [runNext, hnext, hrn] using hInvF

theorem runNext_succ_left {α : Type} (parse : List Byte → Option α × Option Err)
    (pb : PacketBuffer α) (N : Nat) :
    runNext parse pb (N + 1)
      = ((runNext parse (pb.next parse).1 N).1,
         (pb.next parse).2 :: (runNext parse (pb.next parse).1 N).2) := by
  rcases hn : pb.next parse with ⟨pb1, p, e⟩
  rcases hr : runNext parse pb1 N with ⟨pbF, out⟩
  simp [runNext, hn, hr]

theorem runNext_succ_right {α : Type} (parse : List Byte → Option α × Option Err) :
    ∀ (N : Nat) (pb : PacketBuffer α),
      (runNext parse pb (N + 1)).2
          = (runNext parse pb N).2 ++ [((runNext parse pb N).1.next parse).2]
        ∧ (runNext parse pb (N + 1)).1 = ((runNext parse pb N).1.next parse).1 := by
  intro N
  induction N with
  | zero =>
    intro pb
    rcases hn : pb.next parse with ⟨pb1, p, e⟩
    simp [runNext, hn]
  | succ N ih =>
    intro pb
    have h1 := ih (pb.next parse).1
    rw [runNext_succ_left parse pb (N + 1), runNext_succ_left parse pb N]
    simp [h1.1, h1.2]

theorem findSyncFrom_append_skip :
    ∀ (pre suf : List Byte) (idx : Nat), idx + pre.length ≤ 188 →
      findSyncFrom (pre ++ suf) idx = findSyncFrom suf (idx + pre.length)
  | [], suf, idx, _ => by simp [findSyncFrom]
  | c :: pre, suf, idx, h => by
    have hlen : (c :: pre).length = pre.length + 1 := by simp
    have hno : ¬ (c = syncByte ∧ 188 ≤ idx) := by
      rintro ⟨-, h188⟩
      rw [hlen] at h
      omega
    rw [List.cons_append]
    rw [show findSyncFrom (c :: (pre ++ suf)) idx
        = if c = syncByte ∧ 188 ≤ idx then some idx
          else findSyncFrom (pre ++ suf) (idx + 1) from rfl]
    rw [if_neg hno,
      findSyncFrom_append_skip pre suf (idx + 1) (by rw [hlen] at h; omega), hlen]
    congr 1
    omega

theorem findSyncFrom_none :
    ∀ (l : List Byte) (idx : Nat), (∀ c ∈ l, c ≠ syncByte) →
      findSyncFrom l idx = none
  | [], _, _ => rfl
  | c :: cs, idx, h => by
    have hc : ¬ (c = syncByte ∧ 188 ≤ idx) := by
      rintro ⟨hc, -⟩
      exact h c (List.mem_cons_self _ _) hc
    rw [show findSyncFrom (c :: cs) idx
        = if c = syncByte ∧ 188 ≤ idx then some idx
          else findSyncFrom cs (idx + 1) from rfl]
    rw [if_neg hc]
    exact findSyncFrom_none cs (idx + 1) (fun q hq => h q (List.mem_cons_of_mem _ hq))

theorem findSyncFrom_range :
    ∀ (l : List Byte) (idx j : Nat), findSyncFrom l idx = some j →
      188 ≤ j ∧ j < idx + l.length
  | [], idx, j, h => by simp [findSyncFrom] at h
  | c :: cs, idx, j, h => by
    rw [show findSyncFrom (c :: cs) idx
        = if c = syncByte ∧ 188 ≤ idx then some idx
          else findSyncFrom cs (idx + 1) from rfl] at h
    by_cases hc : c = syncByte ∧ 188 ≤ idx
    · rw [if_pos hc] at h
      obtain rfl : idx = j := Option.some.inj h
      exact ⟨hc.2, by simp⟩
    · rw [if_neg hc] at h
      have hr := findSyncFrom_range cs (idx + 1) j h
      refine ⟨hr.1, ?_⟩
      have := hr.2
      simp only [List.length_cons]
      omega

theorem read_fresh (data : List Byte) (k : Nat) (sk : Bool) (fe : Option Err)
    (hk : data.length ≠ 0) (hlen : k ≤ data.length) :
    Source.read ⟨data, 0, sk, fe⟩ k = (⟨data, k, sk, fe⟩, data.take k, none) := by
  unfold Source.read
  dsimp only
  rw [Nat.sub_zero, if_neg hk]
  simp [Nat.min_eq_left hlen]

theorem read_not_exhausted (s : Source) (k : Nat)
    (h : s.full.length - s.pos ≠ 0) :
    ∃ s2 bs, s.read k = (s2, bs, none) := by
  unfold Source.read
  dsimp only
  rw [if_neg h]
  exact ⟨_, _, rfl⟩

theorem autoDetect_stream188 (pkts : List (List Byte)) (sk : Bool)
    (h2 : 2 ≤ pkts.length)
    (hlen : ∀ pk ∈ pkts, pk.length = 188)
    (hsync : ∀ pk ∈ pkts, pk.getD 0 0 = syncByte) :
    (autoDetectPacketSize ⟨pkts.flatten, 0, sk, none⟩).2.1 = 188 ∧
    (autoDetectPacketSize ⟨pkts.flatten, 0, sk, none⟩).2.2 = none := by
  obtain ⟨pk0, pkts1, rfl⟩ : ∃ a t, pkts = a :: t := by
    cases pkts with
    | nil => simp at h2
    | cons a t => exact ⟨a, t, rfl⟩
  obtain ⟨pk1, pkts2, rfl⟩ : ∃ a t, pkts1 = a :: t := by
    cases pkts1 with
    | nil => simp at h2
    | cons a t => exact ⟨a, t, rfl⟩
  have hl0 : pk0.length = 188 := hlen pk0 (by simp)
  have hl1 : pk1.length = 188 := hlen pk1 (by simp)
  have hLlen : (pk0 :: pk1 :: pkts2).flatten.length
      = (pk0 :: pk1 :: pkts2).length * 188 := flatten_length_const hlen
  have hbig2 : 376 ≤ (pk0 :: pk1 :: pkts2).flatten.length := by
    rw [hLlen]
    calc 376 = 2 * 188 := by norm_num
    _ ≤ (pk0 :: pk1 :: pkts2).length * 188 := Nat.mul_le_mul_right 188 h2
  have hbig : 193 ≤ (pk0 :: pk1 :: pkts2).flatten.length := by omega
  have hread := read_fresh ((pk0 :: pk1 :: pkts2).flatten) 193 sk none
    (by omega) hbig
  have htlen : ((pk0 :: pk1 :: pkts2).flatten.take 193).length = 193 :=
    List.length_take_of_le hbig
  have hb : padTo 193 ((pk0 :: pk1 :: pkts2).flatten.take 193)
      = (pk0 :: pk1 :: pkts2).flatten.take 193 := padTo_eq_self htlen
  have hform : (pk0 :: pk1 :: pkts2).flatten.take 193 = pk0 ++ pk1.take 5 := by
    rw [List.flatten_cons, List.take_append_eq_append_take,
      List.take_of_length_le (by omega), hl0, List.flatten_cons,
      List.take_append_eq_append_take, hl1]
    norm_num
  obtain ⟨c1, cs1, rfl⟩ : ∃ a t, pk1 = a :: t := by
    cases pk1 with
    | nil => simp at hl1
    | cons a t => exact ⟨a, t, rfl⟩
  have hc1 : c1 = syncByte := by
    have := hsync (c1 :: cs1) (by simp)
    simpa using this
  have hgd0 : (pk0 ++ (c1 :: cs1).take 5).getD 0 0 = syncByte := by
    rw [List.getD_append _ _ _ 0 (by omega)]
    have := hsync pk0 (by simp)
    simpa using this
  have hfind : findSyncIdx (pk0 ++ (c1 :: cs1).take 5) = some 188 := by
    unfold findSyncIdx
    rw [findSyncFrom_append_skip pk0 ((c1 :: cs1).take 5) 0 (by omega), hl0]
    rw [show (c1 :: cs1).take 5 = c1 :: cs1.take 4 from rfl]
    rw [show findSyncFrom (c1 :: cs1.take 4) (0 + 188)
        = if c1 = syncByte ∧ 188 ≤ 0 + 188 then some (0 + 188)
          else findSyncFrom (cs1.take 4) (0 + 188 + 1) from rfl]
    rw [if_pos ⟨hc1, by omega⟩]
  unfold autoDetectPacketSize
  rw [hread]
  dsimp only
  rw [hb, hform, if_neg (not_not_intro hgd0), hfind]
  cases sk with
  | true =>
    rw [show rewind ⟨(pk0 :: (c1 :: cs1) :: pkts2).flatten, 193, true, none⟩
        = (⟨(pk0 :: (c1 :: cs1) :: pkts2).flatten, 0, true, none⟩, 0, none) from rfl]
    dsimp only
    rw [if_neg (by decide : ¬((0 : Int) = -1))]
    exact ⟨rfl, rfl⟩
  | false =>
    rw [show rewind ⟨(pk0 :: (c1 :: cs1) :: pkts2).flatten, 193, false, none⟩
        = (⟨(pk0 :: (c1 :: cs1) :: pkts2).flatten, 193, false, none⟩, -1, none) from rfl]
    dsimp only
    rw [if_pos rfl]
    obtain ⟨s3, bs3, hsk⟩ := read_not_exhausted
      ⟨(pk0 :: (c1 :: cs1) :: pkts2).flatten, 193, false, none⟩
      (188 - (193 - 188)) (by dsimp only; omega)
    rw [hsk]
    exact ⟨rfl, rfl⟩

theorem autoDetect_stream204 (pkts : List (List Byte)) (sk : Bool)
    (h1 : 1 ≤ pkts.length)
    (hlen : ∀ pk ∈ pkts, pk.length = 204)
    (hsync : ∀ pk ∈ pkts, pk.getD 0 0 = syncByte)
    (hnos : ∀ pk ∈ pkts, ∀ c ∈ pk.drop 1, c ≠ syncByte) :
    (autoDetectPacketSize ⟨pkts.flatten, 0, sk, none⟩).2
      = (0, some Err.errOnlyOneSyncByte) := by
  obtain ⟨pk0, pkts1, rfl⟩ : ∃ a t, pkts = a :: t := by
    cases pkts with
    | nil => simp at h1
    | cons a t => exact ⟨a, t, rfl⟩
  have hl0 : pk0.length = 204 := hlen pk0 (by simp)
  have hbig : 193 ≤ (pk0 :: pkts1).flatten.length := by
    rw [List.flatten_cons, List.length_append]
    omega
  have hread := read_fresh ((pk0 :: pkts1).flatten) 193 sk none (by omega) hbig
  have htlen : ((pk0 :: pkts1).flatten.take 193).length = 193 :=
    List.length_take_of_le hbig
  have hb : padTo 193 ((pk0 :: pkts1).flatten.take 193)
      = (pk0 :: pkts1).flatten.take 193 := padTo_eq_self htlen
  have hform : (pk0 :: pkts1).flatten.take 193 = pk0.take 193 := by
    rw [List.flatten_cons, List.take_append_eq_append_take, hl0]
    norm_num
  obtain ⟨c0, cs0, rfl⟩ : ∃ a t, pk0 = a :: t := by
    cases pk0 with
    | nil => simp at hl0
    | cons a t => exact ⟨a, t, rfl⟩
  have hc0 : c0 = syncByte := by
    have := hsync (c0 :: cs0) (by simp)
    simpa using this
  have hgd0 : ((c0 :: cs0).take 193).getD 0 0 = syncByte := by
    rw [show (c0 :: cs0).take 193 = c0 :: cs0.take 192 from rfl, List.getD_cons_zero]
    exact hc0
  have hl193 : ((c0 :: cs0).take 193).length = 193 := by
    rw [← hform]
    exact htlen
  have hpre : (((c0 :: cs0).take 193).take 188).length = 188 :=
    List.length_take_of_le (by rw [hl193]; omega)
  have hfind : findSyncIdx ((c0 :: cs0).take 193) = none := by
    unfold findSyncIdx
    calc findSyncFrom ((c0 :: cs0).take 193) 0
        = findSyncFrom (((c0 :: cs0).take 193).take 188
            ++ ((c0 :: cs0).take 193).drop 188) 0 := by
          rw [List.take_append_drop]
      _ = findSyncFrom (((c0 :: cs0).take 193).drop 188)
            (0 + (((c0 :: cs0).take 193).take 188).length) :=
          findSyncFrom_append_skip _ _ 0 (by rw [hpre])
      _ = none := by
          rw [hpre]
          refine findSyncFrom_none _ _ ?_
          intro c hc
          rw [List.drop_take] at hc
          have hmem : c ∈ (c0 :: cs0).drop 188 := List.mem_of_mem_take hc
          have hmem1 : c ∈ (c0 :: cs0).drop 1 := by
            have : (c0 :: cs0).drop 188 = ((c0 :: cs0).drop 1).drop 187 := by
              rw [List.drop_drop]
            rw [this] at hmem
            exact List.mem_of_mem_drop hmem
          exact hnos (c0 :: cs0) (by simp) c hmem1
  unfold autoDetectPacketSize
  rw [hread]
  dsimp only
  rw [hb, hform, if_neg (not_not_intro hgd0), hfind]

/-! ## Claim theorems -/

/-- Claim C10: whenever `autoDetectPacketSize` returns without error,
the packet size it returns is at least 188 and at most 192, because it
is the index of a sync-byte recurrence within the 193-byte probe
window; consequently no packet size of 193 or greater can ever be
auto-detected. -/
theorem autoDetect_packet_size_range (s s1 : Source) (p : Nat)
    (h : autoDetectPacketSize s = (s1, p, none)) : 188 ≤ p ∧ p ≤ 192 := by
  unfold autoDetectPacketSize at h
  rcases hr : s.read 193 with ⟨sA, bytes, rerr⟩
  rw [hr] at h
  cases rerr with
  | some e => simp at h
  | none =>
    dsimp only at h
    by_cases h0 : (padTo 193 bytes).getD 0 0 ≠ syncByte
    · rw [if_pos h0] at h
      simp at h
    · rw [if_neg h0] at h
      rcases hf : findSyncIdx (padTo 193 bytes) with _ | idx
      · rw [hf] at h
        simp at h
      · rw [hf] at h
        have hrange := findSyncFrom_range (padTo 193 bytes) 0 idx
          (by simpa [findSyncIdx] using hf)
        have hlen : (padTo 193 bytes).length = 193 := padTo_length _ _
        have hgoal : 188 ≤ idx ∧ idx ≤ 192 := by
          rw [hlen] at hrange
          omega
        rcases hw : rewind sA with ⟨s2, n, we⟩
        rw [hw] at h
        dsimp only at h
        by_cases hn : n = -1
        · rw [if_pos hn] at h
          rcases hsk : s2.read (idx - (193 - idx)) with ⟨s3, bs2, rerr2⟩
          rw [hsk] at h
          cases rerr2 with
          | some e => simp at h
          | none =>
            simp only [Prod.mk.injEq] at h
            obtain ⟨-, hp, -⟩ := h
            exact hp ▸ hgoal
        · rw [if_neg hn] at h
          simp only [Prod.mk.injEq] at h
          obtain ⟨-, hp, -⟩ := h
          exact hp ▸ hgoal

set_option maxRecDepth 100000 in
/-- Counterexample for claim C2: a synthetic stream of two consecutive
204-byte packets (188-byte payload of which only the first byte is the
sync byte, plus an all-zero 16-byte trailer), each starting with the
sync byte, does not make `autoDetectPacketSize` report 204: the probe
window is only 193 bytes, so the second sync marker at index 204 is
never seen and the function fails with the only-one-sync-byte error. -/
theorem autoDetect_204_counterexample :
    (autoDetectPacketSize
        ⟨(71 :: List.replicate 203 0) ++ (71 :: List.replicate 203 0), 0, true, none⟩).2
      = (0, some Err.errOnlyOneSyncByte) := by decide

/-- Claim C2 (amended): a synthetic stream of at least two consecutive
188-byte packets each starting with the sync byte is detected as
packet size 188, with either resynchronization strategy; a stream of
204-byte packets each starting with the sync byte and containing no
further sync byte cannot be detected as 204: the 193-byte probe window
ends before the second packet start, and detection fails with the
only-one-sync-byte error. -/
theorem autoDetect_correctness_amended
    (pktsA pktsB : List (List Byte)) (skA skB : Bool)
    (h2 : 2 ≤ pktsA.length)
    (hlenA : ∀ pk ∈ pktsA, pk.length = 188)
    (hsyncA : ∀ pk ∈ pktsA, pk.getD 0 0 = syncByte)
    (h1 : 1 ≤ pktsB.length)
    (hlenB : ∀ pk ∈ pktsB, pk.length = 204)
    (hsyncB : ∀ pk ∈ pktsB, pk.getD 0 0 = syncByte)
    (hnosB : ∀ pk ∈ pktsB, ∀ c ∈ pk.drop 1, c ≠ syncByte) :
    ((autoDetectPacketSize ⟨pktsA.flatten, 0, skA, none⟩).2.1 = 188 ∧
     (autoDetectPacketSize ⟨pktsA.flatten, 0, skA, none⟩).2.2 = none) ∧
    (autoDetectPacketSize ⟨pktsB.flatten, 0, skB, none⟩).2
      = (0, some Err.errOnlyOneSyncByte) :=
  ⟨autoDetect_stream188 pktsA skA h2 hlenA hsyncA,
   autoDetect_stream204 pktsB skB h1 hlenB hsyncB hnosB⟩

set_option maxRecDepth 400000 in
/-- Witness for the amended C2 at two concrete streams: two 188-byte
packets, and one 204-byte packet, with sync bytes only at packet
starts. -/
theorem autoDetect_correctness_amended_witness :
    ((autoDetectPacketSize
        ⟨([71 :: List.replicate 187 0, 71 :: List.replicate 187 0] :
            List (List Byte)).flatten, 0, true, none⟩).2.1 = 188 ∧
     (autoDetectPacketSize
        ⟨([71 :: List.replicate 187 0, 71 :: List.replicate 187 0] :
            List (List Byte)).flatten, 0, true, none⟩).2.2 = none) ∧
    (autoDetectPacketSize
        ⟨([71 :: List.replicate 203 0] : List (List Byte)).flatten, 0, true, none⟩).2
      = (0, some Err.errOnlyOneSyncByte) :=
  autoDetect_correctness_amended
    [71 :: List.replicate 187 0, 71 :: List.replicate 187 0]
    [71 :: List.replicate 203 0] true true
    (by decide) (by decide) (by decide) (by decide) (by decide) (by decide)
    (by decide)

set_option maxRecDepth 100000 in
/-- Claim C3 (code bug): the failing input is a non-seekable source of
194 bytes whose first byte and byte 188 are sync bytes.  The probe
consumes 193 bytes and detection picks size 188, so the spec requires
the skip read to consume exactly 183 more bytes (2·188 in total) or
fail with an IOError; the code instead issues a single `Read` whose
byte count it ignores, and here that read delivers only the 1 remaining
byte, so `autoDetectPacketSize` succeeds with the cursor at offset 194,
which is not the packet boundary 2·188 = 376. -/
theorem autoDetect_nonseekable_short_skip :
    (autoDetectPacketSize
        ⟨(71 :: List.replicate 187 0) ++ (71 :: List.replicate 4 0) ++ [9],
         0, false, none⟩).2 = (188, none)
    ∧ (autoDetectPacketSize
        ⟨(71 :: List.replicate 187 0) ++ (71 :: List.replicate 4 0) ++ [9],
         0, false, none⟩).1.pos = 194
    ∧ (194 : Nat) ≠ 2 * 188 := by decide

set_option maxRecDepth 100000 in
/-- Claim C8 (code bug): the failing input is a seekable source holding
only 189 bytes whose first and last bytes are sync bytes.  The spec
requires `autoDetectPacketSize` to fail whenever fewer than 193 probe
bytes are available, but the code ignores the byte count returned by
`Read` (unlike `next`, which uses `io.ReadFull`): the 189 delivered
bytes leave the probe's zero padding in place, the scan still finds the
sync byte at index 188, and the function returns packet size 188 with
no error. -/
theorem autoDetect_short_probe_succeeds :
    (autoDetectPacketSize
        ⟨(71 :: List.replicate 187 0) ++ [71], 0, true, none⟩).2 = (188, none)
    ∧ ((71 :: List.replicate 187 0) ++ [71]).length < 193 := by decide

set_option maxRecDepth 100000 in
/-- Witness for C10 at a concrete seekable stream of two 188-byte
packets. -/
theorem autoDetect_packet_size_range_witness :
    autoDetectPacketSize
        ⟨(71 :: List.replicate 187 0) ++ (71 :: List.replicate 187 0), 0, true, none⟩
      = (⟨(71 :: List.replicate 187 0) ++ (71 :: List.replicate 187 0), 0, true, none⟩,
         188, none)
    ∧ (188 ≤ 188 ∧ 188 ≤ 192) := by
  have hEq : autoDetectPacketSize
      ⟨(71 :: List.replicate 187 0) ++ (71 :: List.replicate 187 0), 0, true, none⟩
      = (⟨(71 :: List.replicate 187 0) ++ (71 :: List.replicate 187 0), 0, true, none⟩,
         188, none) := by decide
  exact ⟨hEq, autoDetect_packet_size_range _ _ 188 hEq⟩

/-- Counterexample for claim C4: with packet size 4 and a refill that
read n = 6 bytes, the slice handed to the final decode task is not
shorter than the packet size.  Decoding with the identity decoder (so
that each task's outcome is exactly the byte slice it was handed), the
second `next()` call returns a slice of length 4 — the copied window
`chunk_buffer[4:8]`, whose tail holds the buffer's zero padding — and
not the 6 mod 4 = 2 remaining stream bytes. -/
theorem dispatch_short_slice_counterexample :
    (runNext (fun b : List Byte => (some b, none))
        ⟨List.replicate 8 0, [], 4, ⟨[71, 1, 2, 3, 71, 5], 0, false, none⟩⟩ 2).2
      = [(some [71, 1, 2, 3], none), (some [71, 5, 0, 0], none)]
    ∧ ([71, 5, 0, 0] : List Byte).length ≠ 6 % 4 := by decide

/-- Claim C4 (amended): the byte slice handed to decode task i is an
owned copy of `chunk_buffer[i*packet_size : (i+1)*packet_size]`, and it
always has length `packet_size`: when n is not an exact multiple of
`packet_size` the final task is still dispatched (there are exactly
`ceil(n / packet_size)` tasks), but its slice is the full
`packet_size`-byte window — the bytes past `n mod packet_size` hold
whatever the chunk buffer already contained — rather than a shorter
slice. -/
theorem dispatch_slice_owned_copy {α : Type} (parse : List Byte → Option α × Option Err)
    (buf : List Byte) (ps n i : Nat)
    (hps : 0 < ps) (hbuf : (i + 1) * ps ≤ buf.length) (hi : i < goCeil n ps) :
    (dispatchItems parse buf ps n).length = goCeil n ps ∧
    (dispatchItems parse buf ps n).getD i ⟨none, none⟩
      = itemOf parse (sliceCopy buf ps i) ∧
    sliceCopy buf ps i = (buf.drop (i * ps)).take ps ∧
    (sliceCopy buf ps i).length = ps := by
  rw [Nat.succ_mul] at hbuf
  have hlen : ((buf.drop (i * ps)).take ps).length = ps := by
    rw [List.length_take, List.length_drop, Nat.min_eq_left (by omega)]
  have hself : sliceCopy buf ps i = (buf.drop (i * ps)).take ps :=
    padTo_eq_self hlen
  refine ⟨by simp [dispatchItems], ?_, hself, by rw [hself]; exact hlen⟩
  unfold dispatchItems
  have hilen : i < ((List.range (goCeil n ps)).map
      (fun j => itemOf parse (sliceCopy buf ps j))).length := by
    simpa using hi
  rw [List.getD_eq_getElem _ _ hilen, List.getElem_map, List.getElem_range]

/-- Witness for the amended C4 at packet size 4, an 8-byte buffer and a
refill of n = 6 bytes, looking at the final task i = 1. -/
theorem dispatch_slice_owned_copy_witness :
    (dispatchItems (fun b : List Byte => (some b.length, none))
        [71, 1, 2, 3, 71, 5, 0, 0] 4 6).length = goCeil 6 4 ∧
    (dispatchItems (fun b : List Byte => (some b.length, none))
        [71, 1, 2, 3, 71, 5, 0, 0] 4 6).getD 1 ⟨none, none⟩
      = itemOf (fun b : List Byte => (some b.length, none))
          (sliceCopy [71, 1, 2, 3, 71, 5, 0, 0] 4 1) ∧
    sliceCopy [71, 1, 2, 3, 71, 5, 0, 0] 4 1
      = (([71, 1, 2, 3, 71, 5, 0, 0] : List Byte).drop (1 * 4)).take 4 ∧
    (sliceCopy [71, 1, 2, 3, 71, 5, 0, 0] 4 1).length = 4 :=
  dispatch_slice_owned_copy (fun b : List Byte => (some b.length, none))
    [71, 1, 2, 3, 71, 5, 0, 0] 4 6 1 (by decide) (by decide) (by decide)

/-- Claim C5: immediately after a refill that read n > 0 bytes into an
empty queue, the pending queue holds exactly `ceil(n / packet_size)`
decode tasks; and every successful drain removes exactly the head
task, shrinking the queue length by one. -/
theorem pending_queue_discipline {α : Type} (parse : List Byte → Option α × Option Err)
    (pb pbQ : PacketBuffer α) (n : Nat)
    (hempty : pb.items = []) (hn : 0 < n) (hQ : pbQ.items ≠ []) :
    (dispatchState parse pb n).items.length = goCeil n pb.packetSize ∧
    (pbQ.first).1.items = pbQ.items.tail ∧
    (pbQ.first).1.items.length + 1 = pbQ.items.length := by
  have hdrain : (pbQ.first).1.items = pbQ.items.tail := by
    rcases hq : pbQ.items with _ | ⟨it, rest⟩
    · exact absurd hq hQ
    · simp [PacketBuffer.first, hq]
  refine ⟨by simp [dispatchState, hempty, dispatchItems], hdrain, ?_⟩
  rw [hdrain]
  rcases hq : pbQ.items with _ | ⟨it, rest⟩
  · exact absurd hq hQ
  · simp

/-- Witness for C5 at a concrete buffer (packet size 4, n = 6) and a
concrete non-empty queue of two tasks. -/
theorem pending_queue_discipline_witness :
    (dispatchState (fun b : List Byte => (some b.length, none))
        ⟨[71, 1, 2, 3, 71, 5, 0, 0], [], 4, ⟨[], 0, false, none⟩⟩ 6).items.length
      = goCeil 6 (4 : Nat) ∧
    ((⟨[], [⟨some 3, none⟩, ⟨none, some (Err.parseFailure 0)⟩], 4,
        ⟨[], 0, false, none⟩⟩ : PacketBuffer Nat).first).1.items
      = ([⟨some 3, none⟩, ⟨none, some (Err.parseFailure 0)⟩] :
          List (PBItem Nat)).tail ∧
    ((⟨[], [⟨some 3, none⟩, ⟨none, some (Err.parseFailure 0)⟩], 4,
        ⟨[], 0, false, none⟩⟩ : PacketBuffer Nat).first).1.items.length + 1
      = ([⟨some 3, none⟩, ⟨none, some (Err.parseFailure 0)⟩] :
          List (PBItem Nat)).length := by
  have h := pending_queue_discipline (fun b : List Byte => (some b.length, none))
    ⟨[71, 1, 2, 3, 71, 5, 0, 0], [], 4, ⟨[], 0, false, none⟩⟩
    ⟨[], [⟨some 3, none⟩, ⟨none, some (Err.parseFailure 0)⟩], 4, ⟨[], 0, false, none⟩⟩
    6 rfl (by decide) (by simp)
  exact h

/-- Claim C6: when the pending queue is empty and the source is
cleanly exhausted with zero bytes available, `next()` returns the
`ErrNoMorePackets` sentinel and no fatal error; and for a stream whose
length is an exact multiple of the packet size, the call immediately
following the last packet returns that sentinel. -/
theorem next_clean_exhaustion {α : Type} (parse : List Byte → Option α × Option Err)
    (pb : PacketBuffer α) (cap ps : Nat) (sk : Bool) (buf0 : List Byte)
    (pkts : List (List Byte))
    (hitems : pb.items = [])
    (hrem : pb.src.full.length ≤ pb.src.pos)
    (hfail : pb.src.failErr = none)
    (hk : 0 < pb.buf.length)
    (hcap : 0 < cap) (hps : 0 < ps) (hbuf0 : buf0.length = cap * ps)
    (hlen : ∀ pk ∈ pkts, pk.length = ps)
    (hval : ∀ pk ∈ pkts, (parse pk).1.isSome ∨ (parse pk).2.isSome) :
    pb.next parse = (pb, none, some .errNoMorePackets) ∧
    ((runNext parse ⟨buf0, [], ps, ⟨pkts.flatten, 0, sk, none⟩⟩ (pkts.length + 1)).2).getD
        pkts.length (none, none)
      = (none, some Err.errNoMorePackets) := by
  refine ⟨exhausted_next parse pb hitems hrem hfail hk, ?_⟩
  have hInv0 : BufferInv parse cap
      ⟨buf0, [], ps, ⟨pkts.flatten, 0, sk, none⟩⟩ [] pkts :=
    ⟨by simp, by simp, rfl, by simp, hlen, hps, hcap, hbuf0⟩
  obtain ⟨hout, hInvF⟩ := runNext_spec parse cap pkts.length
    ⟨buf0, [], ps, ⟨pkts.flatten, 0, sk, none⟩⟩ [] pkts (by simp) hInv0
    (by simpa using hval)
  obtain ⟨hiF, hsF, hfF, -, -, hpsF, -, hbF⟩ := hInvF
  have hsucc := runNext_succ_right parse pkts.length
    ⟨buf0, [], ps, ⟨pkts.flatten, 0, sk, none⟩⟩
  rw [hsucc.1]
  have houtlen : (runNext parse
      ⟨buf0, [], ps, ⟨pkts.flatten, 0, sk, none⟩⟩ pkts.length).2.length
      = pkts.length := by
    rw [hout]
    simp
  rw [List.getD_append_right _ _ _ _ (by omega), houtlen, Nat.sub_self]
  have hnextF := exhausted_next parse
    (runNext parse ⟨buf0, [], ps, ⟨pkts.flatten, 0, sk, none⟩⟩ pkts.length).1
    (by simpa using hiF)
    (by
      have hdroplen := congrArg List.length hsF
      simp only [List.length_drop, List.flatten_nil, List.length_nil] at hdroplen
      omega)
    hfF
    (by rw [hbF]; exact Nat.mul_pos (by omega) hpsF)
  rw [hnextF]
  rfl

/-- Witness for C6: an already-exhausted two-byte-buffer state, and a
one-packet stream of packet size 2 drained once and then pulled
again. -/
theorem next_clean_exhaustion_witness :
    (⟨[0, 0], [], 2, ⟨[], 0, false, none⟩⟩ : PacketBuffer Nat).next
        (fun b : List Byte => (some b.length, none))
      = (⟨[0, 0], [], 2, ⟨[], 0, false, none⟩⟩, none, some .errNoMorePackets) ∧
    ((runNext (fun b : List Byte => (some b.length, none))
        ⟨[0, 0], [], 2, ⟨([[5, 6]] : List (List Byte)).flatten, 0, false, none⟩⟩
        (([[5, 6]] : List (List Byte)).length + 1)).2).getD
        ([[5, 6]] : List (List Byte)).length (none, none)
      = (none, some Err.errNoMorePackets) :=
  next_clean_exhaustion (fun b : List Byte => (some b.length, none))
    ⟨[0, 0], [], 2, ⟨[], 0, false, none⟩⟩ 1 2 false [0, 0] [[5, 6]]
    rfl (by decide) rfl (by decide) (by decide) (by decide) (by decide)
    (by decide) (by decide)

theorem next_fatal_eq {α : Type} (parse : List Byte → Option α × Option Err)
    (pb : PacketBuffer α) (s1 : Source) (bs : List Byte) (e : Err)
    (hfirst : pb.first = (pb, none, none))
    (hrf : pb.src.readFull pb.buf.length = (s1, bs, some e))
    (he1 : e ≠ .ioEOF) (he2 : e ≠ .ioErrUnexpectedEOF) :
    pb.next parse
      = ({ pb with src := s1, buf := bs ++ pb.buf.drop bs.length }, none,
         some (.wrap "astits: reading bytes failed" e)) := by
  unfold PacketBuffer.next
  rw [hfirst]
  dsimp only
  rw [hrf]
  dsimp only
  cases e <;> first
    | exact absurd rfl he1
    | exact absurd rfl he2
    | rfl

/-- Claim C7: when the refill read fails with a fatal error (neither a
clean EOF nor the short-final-read ErrUnexpectedEOF), `next()` returns
that error wrapped, immediately, and queues no decode tasks: the
pending queue is exactly as it was before the call. -/
theorem refill_error_atomic {α : Type} (parse : List Byte → Option α × Option Err)
    (pb : PacketBuffer α) (f : Err)
    (hitems : pb.items = [])
    (hfail : pb.src.failErr = some f)
    (hrem : pb.src.full.length - pb.src.pos < pb.buf.length)
    (hf1 : f ≠ .ioEOF) (hf2 : f ≠ .ioErrUnexpectedEOF) :
    ∃ pbF : PacketBuffer α,
      pb.next parse = (pbF, none, some (.wrap "astits: reading bytes failed" f))
      ∧ pbF.items = pb.items := by
  have hfirst : pb.first = (pb, none, none) := by
    simp [PacketBuffer.first, hitems]
  have hkne : ¬ (pb.buf.length ≤ pb.src.full.length - pb.src.pos) := by omega
  by_cases h0 : pb.src.full.length - pb.src.pos = 0
  · have hrf : pb.src.readFull pb.buf.length = (pb.src, [], some f) := by
      unfold Source.readFull
      dsimp only
      rw [if_neg hkne, if_pos h0, hfail]
      rfl
    exact ⟨_, next_fatal_eq parse pb _ _ f hfirst hrf hf1 hf2, hitems.symm ▸ rfl⟩
  · have hrf : pb.src.readFull pb.buf.length
        = ({ pb.src with pos := pb.src.pos + (pb.src.full.length - pb.src.pos) },
           (pb.src.full.drop pb.src.pos).take (pb.src.full.length - pb.src.pos),
           some f) := by
      unfold Source.readFull
      dsimp only
      rw [if_neg hkne, if_neg h0, hfail, Option.getD_some, if_neg hf1]
    exact ⟨_, next_fatal_eq parse pb _ _ f hfirst hrf hf1 hf2, hitems.symm ▸ rfl⟩

/-- Witness for C7: a non-seekable two-byte-buffer state whose source
holds one stray byte and then fails with an injected fatal error. -/
theorem refill_error_atomic_witness :
    ∃ pbF : PacketBuffer Nat,
      (⟨[0, 0], [], 2, ⟨[9], 0, false, some (Err.injected 3)⟩⟩ :
          PacketBuffer Nat).next (fun b : List Byte => (some b.length, none))
        = (pbF, none,
           some (.wrap "astits: reading bytes failed" (Err.injected 3)))
      ∧ pbF.items
        = (⟨[0, 0], [], 2, ⟨[9], 0, false, some (Err.injected 3)⟩⟩ :
            PacketBuffer Nat).items :=
  refill_error_atomic (fun b : List Byte => (some b.length, none))
    ⟨[0, 0], [], 2, ⟨[9], 0, false, some (Err.injected 3)⟩⟩ (Err.injected 3)
    rfl rfl (by decide) (by decide) (by decide)

/-- Claim C1: for every stream of k ≥ 0 whole packets, the successive
`next()` calls return exactly the per-packet decode results in
original stream arrival order.  Each decode task's outcome is a pure
function of the private slice copy it owns (single writer, written
before the completion signal), so it is fixed at dispatch time and the
returned sequence is independent of the order or timing in which the
concurrent decode tasks complete; tasks are appended to the pending
queue in slice-index order before their work starts, and draining
always takes the head. -/
theorem next_order_preservation {α : Type} (parse : List Byte → Option α × Option Err)
    (cap ps : Nat) (sk : Bool) (buf0 : List Byte) (pkts : List (List Byte))
    (hcap : 0 < cap) (hps : 0 < ps) (hbuf0 : buf0.length = cap * ps)
    (hlen : ∀ pk ∈ pkts, pk.length = ps)
    (hval : ∀ pk ∈ pkts, (parse pk).1.isSome ∨ (parse pk).2.isSome) :
    (runNext parse ⟨buf0, [], ps, ⟨pkts.flatten, 0, sk, none⟩⟩ pkts.length).2
      = pkts.map (fun pk => ((parse pk).1, (parse pk).2)) := by
  have hInv0 : BufferInv parse cap
      ⟨buf0, [], ps, ⟨pkts.flatten, 0, sk, none⟩⟩ [] pkts :=
    ⟨by simp, by simp, rfl, by simp, hlen, hps, hcap, hbuf0⟩
  have h := runNext_spec parse cap pkts.length
    ⟨buf0, [], ps, ⟨pkts.flatten, 0, sk, none⟩⟩ [] pkts (by simp) hInv0
    (by simpa using hval)
  simpa using h.1

/-- Witness for C1 at a concrete two-packet stream with packet size 2
and a two-packet chunk buffer. -/
theorem next_order_preservation_witness :
    (runNext (fun b : List Byte => ((some (b.getD 1 0) : Option Byte), (none : Option Err)))
        ⟨List.replicate 4 0, [], 2,
         ⟨([[71, 10], [71, 11]] : List (List Byte)).flatten, 0, false, none⟩⟩
        ([[71, 10], [71, 11]] : List (List Byte)).length).2
      = ([[71, 10], [71, 11]] : List (List Byte)).map
          (fun pk =>
            (((fun b : List Byte =>
                ((some (b.getD 1 0) : Option Byte), (none : Option Err))) pk).1,
             ((fun b : List Byte =>
                ((some (b.getD 1 0) : Option Byte), (none : Option Err))) pk).2)) :=
  next_order_preservation
    (fun b : List Byte => ((some (b.getD 1 0) : Option Byte), (none : Option Err)))
    2 2 false (List.replicate 4 0) [[71, 10], [71, 11]]
    (by decide) (by decide) (by decide) (by decide) (by decide)

/-- Claim C9: if the decoder fails for packet index j only, `next()`
returns that decode error exactly on the call that drains task j, and
packets j-1 and j+1 are returned normally on their respective calls;
the per-packet error neither aborts sibling tasks nor surfaces on any
other drain. -/
theorem decode_error_isolation {α : Type} (parse : List Byte → Option α × Option Err)
    (cap ps : Nat) (sk : Bool) (buf0 : List Byte) (pkts : List (List Byte))
    (j : Nat) (e : Err) (pPrev pNext : α)
    (hcap : 0 < cap) (hps : 0 < ps) (hbuf0 : buf0.length = cap * ps)
    (hlen : ∀ pk ∈ pkts, pk.length = ps)
    (hval : ∀ pk ∈ pkts, (parse pk).1.isSome ∨ (parse pk).2.isSome)
    (hj0 : 1 ≤ j) (hjlen : j + 1 < pkts.length)
    (herr : parse (pkts.getD j []) = (none, some e))
    (hprev : parse (pkts.getD (j - 1) []) = (some pPrev, none))
    (hnext2 : parse (pkts.getD (j + 1) []) = (some pNext, none)) :
    ((runNext parse ⟨buf0, [], ps, ⟨pkts.flatten, 0, sk, none⟩⟩ pkts.length).2).getD
        j (none, none) = (none, some e)
    ∧ ((runNext parse ⟨buf0, [], ps, ⟨pkts.flatten, 0, sk, none⟩⟩ pkts.length).2).getD
        (j - 1) (none, none) = (some pPrev, none)
    ∧ ((runNext parse ⟨buf0, [], ps, ⟨pkts.flatten, 0, sk, none⟩⟩ pkts.length).2).getD
        (j + 1) (none, none) = (some pNext, none) := by
  have hInv0 : BufferInv parse cap
      ⟨buf0, [], ps, ⟨pkts.flatten, 0, sk, none⟩⟩ [] pkts :=
    ⟨by simp, by simp, rfl, by simp, hlen, hps, hcap, hbuf0⟩
  have h := (runNext_spec parse cap pkts.length
    ⟨buf0, [], ps, ⟨pkts.flatten, 0, sk, none⟩⟩ [] pkts (by simp) hInv0
    (by simpa using hval)).1
  have hmapout : (runNext parse
      ⟨buf0, [], ps, ⟨pkts.flatten, 0, sk, none⟩⟩ pkts.length).2
      = pkts.map (fun pk => ((parse pk).1, (parse pk).2)) := by
    simpa using h
  have hgd : ∀ i : Nat, i < pkts.length →
      (pkts.map (fun pk => ((parse pk).1, (parse pk).2))).getD i (none, none)
        = ((parse (pkts.getD i [])).1, (parse (pkts.getD i [])).2) := by
    intro i hi
    have h1 : i < (pkts.map (fun pk => ((parse pk).1, (parse pk).2))).length := by
      simpa using hi
    rw [List.getD_eq_getElem _ _ h1, List.getElem_map,
      List.getD_eq_getElem _ _ hi]
  rw [hmapout]
  refine ⟨?_, ?_, ?_⟩
  · rw [hgd j (by omega), herr]
  · rw [hgd (j - 1) (by omega), hprev]
  · rw [hgd (j + 1) (by omega), hnext2]

/-- Witness for C9: a three-packet stream of packet size 1 where the
decoder fails exactly on the middle packet. -/
theorem decode_error_isolation_witness :
    ((runNext
        (fun b : List Byte =>
          if b = [11] then ((none : Option Nat), some (Err.parseFailure 7))
          else (some (b.headD 0), none))
        ⟨List.replicate 4 0, [], 1,
         ⟨([[10], [11], [12]] : List (List Byte)).flatten, 0, false, none⟩⟩
        ([[10], [11], [12]] : List (List Byte)).length).2).getD 1 (none, none)
      = (none, some (Err.parseFailure 7))
    ∧ ((runNext
        (fun b : List Byte =>
          if b = [11] then ((none : Option Nat), some (Err.parseFailure 7))
          else (some (b.headD 0), none))
        ⟨List.replicate 4 0, [], 1,
         ⟨([[10], [11], [12]] : List (List Byte)).flatten, 0, false, none⟩⟩
        ([[10], [11], [12]] : List (List Byte)).length).2).getD (1 - 1) (none, none)
      = (some 10, none)
    ∧ ((runNext
        (fun b : List Byte =>
          if b = [11] then ((none : Option Nat), some (Err.parseFailure 7))
          else (some (b.headD 0), none))
        ⟨List.replicate 4 0, [], 1,
         ⟨([[10], [11], [12]] : List (List Byte)).flatten, 0, false, none⟩⟩
        ([[10], [11], [12]] : List (List Byte)).length).2).getD (1 + 1) (none, none)
      = (some 12, none) :=
  decode_error_isolation
    (fun b : List Byte =>
      if b = [11] then ((none : Option Nat), some (Err.parseFailure 7))
      else (some (b.headD 0), none))
    4 1 false (List.replicate 4 0) [[10], [11], [12]] 1 (Err.parseFailure 7) 10 12
    (by decide) (by decide) (by decide) (by decide) (by decide) (by decide)
    (by decide) (by decide) (by decide) (by decide)

end Astits
